import Mathlib

/-!
Shallow embedding of the antenna-placement genetic algorithm
(`src/problem_domain.py` and `src/genetic_algorithm.py`).

Modelling conventions:
* Python floats are modelled as `Rat` (exact arithmetic; the spec allows the
  squared-distance comparison as an equivalent of the Euclidean test).
* Genes are bits, modelled as `Bool` (`True ↔ 1`); Python's `1 - g` bit flip
  becomes `!g`.
* Python exceptions become `Except Err`.
* The pseudo-random source is an oracle passed explicitly: every value the
  Python code draws from `random.Random` (selection draws, the crossover
  decision, the two sampled cut points, per-gene mutation draws, and the
  random initial population) is a parameter of the embedded function.
-/

/-- Error taxonomy of the Python code: `ValueError` raised by `Problem.decode`
for a length mismatch (the spec's InvalidChromosome), the `ValueError` raised
by `random.choices` when the total of the weights is not positive, and the
errors raised on an empty population (`IndexError` from `cum_weights[-1]`,
`ValueError` from `max` of an empty sequence). -/
inductive Err where
  | invalidChromosome
  | totalWeightZero
  | emptyPopulation
deriving DecidableEq, Repr

/-- Embeds `problem_domain.Client`: an immutable demand point. -/
structure Client where
  identifier : String
  x : Rat
  y : Rat
deriving DecidableEq, Repr

/-- Embeds `problem_domain.Problem`'s constructor fields. -/
structure Problem where
  clients : List Client
  num_antennas : Nat
  bits_per_coord : Nat
  map_width : Nat
  map_height : Nat
  coverage_radius : Rat
deriving DecidableEq, Repr

/-- Embeds `self.chromosome_length = num_antennas * bits_per_coord * 2`. -/
def Problem.chromosome_length (p : Problem) : Nat :=
  p.num_antennas * p.bits_per_coord * 2

/-- Embeds `self._radius_sq = float(coverage_radius) ** 2`. -/
def Problem.radius_sq (p : Problem) : Rat :=
  p.coverage_radius ^ 2

/-- The MSB-first value of a bit list: `bitsVal [b0, ..., bk]` folds
`acc ↦ 2*acc + b`. -/
def bitsVal (bits : List Bool) : Nat :=
  bits.foldl (fun acc b => 2 * acc + (if b then 1 else 0)) 0

/-- Embeds `_bits_to_int(bits) = int("".join(map(str, bits)), 2)`.
On a list of bits the parsed binary string is exactly the MSB-first value
`bitsVal`; `int("", 2)` raises `ValueError`, hence `none` on the empty list. -/
def bits_to_int (bits : List Bool) : Option Nat :=
  if bits.isEmpty then none else some (bitsVal bits)

/-- Embeds the loop body of `Problem.decode`: `for i in range(num_antennas)`
take `genes[start:mid]` as X bits and `genes[mid:end]` as Y bits
(`l[a:b]` with `b - a = bits_per_coord` is `(l.drop a).take bits_per_coord`)
and clamp with `min(value, map_width)` / `min(value, map_height)`. -/
def decodeAux (p : Problem) (genes : List Bool) : List Nat → Except Err (List (Nat × Nat))
  | [] => .ok []
  | i :: rest =>
    let start := i * (p.bits_per_coord * 2)
    match bits_to_int ((genes.drop start).take p.bits_per_coord),
          bits_to_int ((genes.drop (start + p.bits_per_coord)).take p.bits_per_coord) with
    | some xVal, some yVal =>
      match decodeAux p genes rest with
      | .ok tail => .ok ((min xVal p.map_width, min yVal p.map_height) :: tail)
      | .error e => .error e
    | _, _ => .error .invalidChromosome

/-- Embeds `Problem.decode`: raise `ValueError` unless
`len(genes) == chromosome_length`, then decode one coordinate pair per
antenna. -/
def Problem.decode (p : Problem) (genes : List Bool) : Except Err (List (Nat × Nat)) :=
  if genes.length ≠ p.chromosome_length then .error .invalidChromosome
  else decodeAux p genes (List.range p.num_antennas)

/-- Whether a client is within `coverage_radius` (inclusive) of at least one
antenna: the numpy row `np.any(distances_sq <= self._radius_sq, axis=1)` for
one client. -/
def coveredBy (p : Problem) (coords : List (Nat × Nat)) (c : Client) : Bool :=
  coords.any (fun a =>
    decide ((c.x - (a.1 : Rat)) ^ 2 + (c.y - (a.2 : Rat)) ^ 2 ≤ p.radius_sq))

/-- Embeds `Problem.calculate_fitness`: return 0 when the client array is
empty, decode, return 0 when the antenna array is empty, else count the
clients covered by at least one antenna
(`int(np.count_nonzero(np.any(distances_sq <= radius_sq, axis=1)))`). -/
def Problem.calculate_fitness (p : Problem) (genes : List Bool) : Except Err Nat :=
  if p.clients.isEmpty then .ok 0
  else
    match p.decode genes with
    | .error e => .error e
    | .ok coords =>
      if coords.isEmpty then .ok 0
      else .ok (p.clients.countP (coveredBy p coords))

/-- Embeds `genetic_algorithm.Individual`: a gene list and a cached fitness
with sentinel `-1` (the dataclass default). -/
structure Individual where
  genes : List Bool
  fitness : Int := -1
deriving DecidableEq, Repr

/-- Embeds `Individual.clone = dataclasses.replace(self)` at the value level:
a new `Individual` carrying the same field values. (`replace` copies the
*reference* to the gene list; the reference-level consequences of that are
modelled separately by `RefIndividual.clone` below.) -/
def Individual.clone (ind : Individual) : Individual :=
  { genes := ind.genes, fitness := ind.fitness }

/-- Embeds `genetic_algorithm.config`: the configuration constants the engine
reads (`POPULATION_SIZE`, `MAX_GENERATIONS`, `ELITISM_COUNT`,
`CROSSOVER_RATE`, `MUTATION_RATE`, `MAX_STAGNANT_GENERATIONS`). -/
structure Config where
  populationSize : Nat
  maxGenerations : Nat
  elitismCount : Nat
  crossoverRate : Rat
  mutationRate : Rat
  maxStagnantGenerations : Nat
deriving DecidableEq, Repr

/-- Stable insert for a descending-by-fitness insertion sort: `x` is placed
before the first later element whose fitness is `≤` its own. -/
def insertDesc (x : Individual) : List Individual → List Individual
  | [] => [x]
  | y :: ys => if y.fitness ≤ x.fitness then x :: y :: ys else y :: insertDesc x ys

/-- Embeds `sorted(self.population, key=lambda ind: ind.fitness, reverse=True)`.
Python's `sorted` is a stable descending sort here; a stable sort's output is
uniquely determined by the key order and the input order, so this insertion
formulation computes the same list. -/
def sortDesc : List Individual → List Individual
  | [] => []
  | x :: xs => insertDesc x (sortDesc xs)

/-- Running partial sums, from a start value: `itertools.accumulate`. -/
def cumsumFrom (s : Int) : List Int → List Int
  | [] => []
  | w :: ws => (s + w) :: cumsumFrom (s + w) ws

/-- Embeds `cum_weights = list(accumulate(weights))`. -/
def cumsum (l : List Int) : List Int := cumsumFrom 0 l

/-- Embeds `bisect.bisect_right(cum_weights, x, 0, hi)` on a nondecreasing
list: the number of entries among the first `hi` that are `≤ x`. The engine
only calls this on cumulative sums of nonnegative weights, which are
nondecreasing, where binary search returns exactly this count. -/
def bisectIndex (cum : List Int) (x : Rat) (hi : Nat) : Nat :=
  (cum.take hi).countP (fun c => decide ((c : Rat) ≤ x))

/-- Embeds `GeneticAlgorithm._roulette_selection` together with the body of
`random.Random.choices(population, weights, k=1)` it delegates to:
weights are `max(ind.fitness, 0)`; `choices` accumulates them, raises
`IndexError` on an empty population (`cum_weights[-1]`), raises
`ValueError("Total of weights must be greater than zero")` when the total is
not positive, and otherwise returns
`population[bisect_right(cum_weights, random() * total, 0, n - 1)]`.
`r` is the `random()` draw in `[0, 1)`. The fallback `Individual` given to
`getD` is never used: the bisect index is `≤ n - 1 < n`. -/
def roulette_selection (pop : List Individual) (r : Rat) : Except Err Individual :=
  let weights := pop.map (fun ind => max ind.fitness 0)
  let cum := cumsum weights
  match cum.getLast? with
  | none => .error .emptyPopulation
  | some total =>
    if total ≤ 0 then .error .totalWeightZero
    else .ok (pop.getD (bisectIndex cum (r * (total : Rat)) (pop.length - 1))
                       { genes := [], fitness := -1 })

/-- Embeds `GeneticAlgorithm._crossover`: two-point crossover. If the length
is below 3 the parents are returned as the children (as value copies);
otherwise `p1, p2 = sorted(rng.sample(range(1, length), 2))` and the middle
segment is swapped. The two sampled cut points are the oracle inputs `c1`,
`c2`; `sorted` of the two is `(min, max)`. Python slices clip out-of-range
indices exactly as `take`/`drop` do. -/
def crossover (parent_a parent_b : List Bool) (c1 c2 : Nat) :
    List Bool × List Bool :=
  let length := parent_a.length
  if length < 3 then (parent_a, parent_b)
  else
    let p1 := min c1 c2
    let p2 := max c1 c2
    (parent_a.take p1 ++ (parent_b.drop p1).take (p2 - p1) ++ parent_a.drop p2,
     parent_b.take p1 ++ (parent_a.drop p1).take (p2 - p1) ++ parent_b.drop p2)

/-- Embeds `GeneticAlgorithm._mutate`: for each index `i`, flip the bit when
the `i`-th mutation draw is `< MUTATION_RATE` (Python's in-place
`genes[i] = 1 - genes[i]` becomes a positional map). -/
def mutate (rate : Rat) (draw : Nat → Rat) (genes : List Bool) : List Bool :=
  genes.enum.map (fun gi => if draw gi.1 < rate then !gi.2 else gi.2)

/-- The random values one iteration of the reproduction loop consumes:
the two `random()` draws inside the two `_roulette_selection` calls, the
`random()` draw compared with `CROSSOVER_RATE`, the two cut points produced
by `rng.sample(range(1, length), 2)`, and the per-gene mutation draws for the
two children. -/
structure PairDraw where
  rSel1 : Rat
  rSel2 : Rat
  rCross : Rat
  cut1 : Nat
  cut2 : Nat
  mutA : Nat → Rat
  mutB : Nat → Rat

/-- Embeds the `while len(next_generation) < config.POPULATION_SIZE` loop of
`GeneticAlgorithm._breed_next_generation`: select two parents, with
probability `CROSSOVER_RATE` apply crossover (else copy the parents' genes),
mutate both children, append child A, and append child B only if there is
still room. `step` indexes the oracle's per-iteration draws. The first
`Nat` argument is a structural bound on the number of iterations; every
iteration appends at least one individual, so the bound
`populationSize + 1` passed by `breed_next_generation` is never exhausted
(this is established, not assumed, by the lemmas below — the `fuel = 0`
clause is unreachable from that call). -/
def breedLoop (cfg : Config) (pop : List Individual) (draws : Nat → PairDraw) :
    Nat → Nat → List Individual → Except Err (List Individual)
  | 0, _, acc => .ok acc
  | fuel + 1, step, acc =>
    if acc.length < cfg.populationSize then
      let d := draws step
      match roulette_selection pop d.rSel1, roulette_selection pop d.rSel2 with
      | .error e, _ => .error e
      | .ok _, .error e => .error e
      | .ok parent1, .ok parent2 =>
        let pair :=
          if d.rCross < cfg.crossoverRate then
            crossover parent1.genes parent2.genes d.cut1 d.cut2
          else (parent1.genes, parent2.genes)
        let childA := mutate cfg.mutationRate d.mutA pair.1
        let childB := mutate cfg.mutationRate d.mutB pair.2
        let acc1 := acc ++ [{ genes := childA }]
        if acc1.length < cfg.populationSize then
          breedLoop cfg pop draws fuel (step + 1) (acc1 ++ [{ genes := childB }])
        else
          breedLoop cfg pop draws fuel (step + 1) acc1
    else .ok acc

/-- Embeds `GeneticAlgorithm._breed_next_generation`: clone the
`ELITISM_COUNT` best of the (stable, descending) sorted population, fill the
rest via the reproduction loop, and truncate with
`next_generation[:config.POPULATION_SIZE]`. -/
def breed_next_generation (cfg : Config) (pop : List Individual)
    (draws : Nat → PairDraw) : Except Err (List Individual) :=
  let elites := ((sortDesc pop).take cfg.elitismCount).map Individual.clone
  match breedLoop cfg pop draws (cfg.populationSize + 1) 0 elites with
  | .error e => .error e
  | .ok nextGen => .ok (nextGen.take cfg.populationSize)

/-- Embeds `GeneticAlgorithm._evaluate_population`: set every individual's
fitness to `problem.calculate_fitness(individual.genes)`, propagating the
exception the first failing call raises. -/
def evaluate_population (p : Problem) : List Individual → Except Err (List Individual)
  | [] => .ok []
  | ind :: rest =>
    match p.calculate_fitness ind.genes with
    | .error e => .error e
    | .ok f =>
      match evaluate_population p rest with
      | .ok tail => .ok ({ ind with fitness := (f : Int) } :: tail)
      | .error e => .error e

/-- Embeds `max(self.population, key=lambda ind: ind.fitness)`: `none` on an
empty list (Python raises `ValueError`); on ties the earliest maximal element
is kept, as Python's `max` only replaces on a strictly greater key. -/
def maxByFitness : List Individual → Option Individual
  | [] => none
  | x :: xs => some (xs.foldl (fun b y => if b.fitness < y.fitness then y else b) x)

/-- Embeds the `for i in range(1, config.MAX_GENERATIONS + 1)` loop of
`GeneticAlgorithm.run`: breed, evaluate, track the best-ever individual
(cloned on a strict improvement, stagnation counter reset; otherwise the
counter is incremented), and break as soon as
`stagnant_generations >= config.MAX_STAGNANT_GENERATIONS`. Recursion is on
the number of loop iterations still to run (`maxGenerations + 1 - i` at
generation index `i`, exactly the remainder of `range(1, maxGenerations + 1)`);
when it reaches 0 the loop has completed without a break and
`generations_run = i - 1` iterations were executed. The returned `Nat` is
`generations_run`: the loop index at the break, or `MAX_GENERATIONS` when
the loop completes. -/
def runLoop (p : Problem) (cfg : Config) (draws : Nat → Nat → PairDraw) :
    Nat → List Individual → Individual → Nat → Nat → Except Err (Individual × Nat)
  | 0, _, best, _, i => .ok (best, i - 1)
  | remaining + 1, pop, best, stagnant, i =>
    match breed_next_generation cfg pop (draws i) with
    | .error e => .error e
    | .ok newPop =>
      match evaluate_population p newPop with
      | .error e => .error e
      | .ok evalPop =>
        match maxByFitness evalPop with
        | none => .error .emptyPopulation
        | some currentBest =>
          let next :=
            if best.fitness < currentBest.fitness then (currentBest.clone, 0)
            else (best, stagnant + 1)
          if cfg.maxStagnantGenerations ≤ next.2 then .ok (next.1, i)
          else runLoop p cfg draws remaining evalPop next.1 next.2 (i + 1)

/-- Embeds `GeneticAlgorithm.run`: evaluate the initial population (supplied
by the random source), take `best_overall = max(population).clone()`, then
iterate the generation loop over `range(1, MAX_GENERATIONS + 1)` — i.e.
`MAX_GENERATIONS` iterations starting at index 1 — with the stagnation
counter at 0. Returns the best-ever individual and `generations_run`. -/
def run (p : Problem) (cfg : Config) (initPop : List Individual)
    (draws : Nat → Nat → PairDraw) : Except Err (Individual × Nat) :=
  match evaluate_population p initPop with
  | .error e => .error e
  | .ok pop =>
    match maxByFitness pop with
    | none => .error .emptyPopulation
    | some b => runLoop p cfg draws cfg.maxGenerations pop b.clone 0 1

/-- Embeds `GeneticAlgorithm.__init__`: it stores the problem, an empty
population, the seeded random source, and `generations_run = 0`. The
constructor contains no validation of any configuration value and no
`raise`, so it succeeds on every configuration. -/
def gaInit (p : Problem) (cfg : Config) : Except Err (Problem × List Individual × Nat) :=
  .ok (p, [], 0)

/-! Reference-level model of `Individual.clone`. In Python an `Individual`
holds a *reference* to its mutable gene list, and
`dataclasses.replace(self)` copies the field values — i.e. the reference —
into the new object. The store maps references to gene lists. -/

/-- An object store for gene lists: reference `r` names `lists[r]`. -/
structure GeneStore where
  lists : List (List Bool)
deriving DecidableEq, Repr

/-- An `Individual` as Python holds it: a reference to a gene list plus the
(immutable-int) fitness field. -/
structure RefIndividual where
  genesRef : Nat
  fitness : Int
deriving DecidableEq, Repr

/-- Embeds `Individual.clone = dataclasses.replace(self)` at the reference
level: both field values — the gene-list reference and the fitness — are
copied, so the clone shares the gene list object. -/
def RefIndividual.clone (ind : RefIndividual) : RefIndividual :=
  { genesRef := ind.genesRef, fitness := ind.fitness }

/-- Dereference a gene-list reference. -/
def GeneStore.read (s : GeneStore) (r : Nat) : List Bool :=
  s.lists.getD r []

/-- In-place modification of the gene list an individual references (what
`genes[i] = ...` does in Python). -/
def GeneStore.write (s : GeneStore) (r : Nat) (v : List Bool) : GeneStore :=
  ⟨s.lists.set r v⟩

deriving instance DecidableEq for Except

/-- The coordinate pair the decode loop produces for antenna slot `i`: the
MSB-first values of the X and Y bit slices, clamped by `min` to the map
bounds (an abbreviation used to state properties of `decode`). -/
def decodedAntenna (p : Problem) (genes : List Bool) (i : Nat) : Nat × Nat :=
  (min (bitsVal ((genes.drop (i * (p.bits_per_coord * 2))).take p.bits_per_coord))
       p.map_width,
   min (bitsVal ((genes.drop (i * (p.bits_per_coord * 2) + p.bits_per_coord)).take
         p.bits_per_coord))
       p.map_height)

/-- The cached fitness of an individual agrees with `calculate_fitness` of
its genes. -/
def FitConsistent (p : Problem) (ind : Individual) : Prop :=
  ∃ f : Nat, p.calculate_fitness ind.genes = .ok f ∧ ind.fitness = (f : Int)

/-! Helper lemmas about bit decoding. -/

theorem bitsVal_replicate_false (n : Nat) :
    bitsVal (List.replicate n false) = 0 := by
  induction n with
  | zero => rfl
  | succ n ih =>
    simpa [bitsVal, List.replicate_succ] using ih

theorem bitsVal_true_aux (n : Nat) : ∀ acc : Nat,
    List.foldl (fun acc b => 2 * acc + (if b then 1 else 0)) acc
      (List.replicate n true) = (acc + 1) * 2 ^ n - 1 := by
  induction n with
  | zero => intro acc; simp
  | succ n ih =>
    intro acc
    rw [List.replicate_succ, List.foldl_cons, if_pos rfl, ih (2 * acc + 1)]
    have h : (2 * acc + 1 + 1) * 2 ^ n = (acc + 1) * 2 ^ (n + 1) := by ring
    rw [h]

theorem bitsVal_replicate_true (n : Nat) :
    bitsVal (List.replicate n true) = 2 ^ n - 1 := by
  simpa [bitsVal] using bitsVal_true_aux n 0

theorem antenna_slice_bound (n b i : Nat) (hi : i < n) :
    i * (b * 2) + b * 2 ≤ n * b * 2 := by
  calc i * (b * 2) + b * 2 = (i + 1) * (b * 2) := by ring
    _ ≤ n * (b * 2) := Nat.mul_le_mul_right _ (Nat.succ_le_of_lt hi)
    _ = n * b * 2 := by ring

theorem slice_ne_nil (genes : List Bool) (s b : Nat) (hb : 0 < b)
    (hs : s + b ≤ genes.length) : (genes.drop s).take b ≠ [] := by
  intro hnil
  rcases List.take_eq_nil_iff.mp hnil with h | h
  · omega
  · have hlen : genes.length ≤ s := List.drop_eq_nil_iff.mp h
    omega

theorem decodeAux_ok (p : Problem) (genes : List Bool) (l : List Nat)
    (hx : ∀ i ∈ l,
      (genes.drop (i * (p.bits_per_coord * 2))).take p.bits_per_coord ≠ [])
    (hy : ∀ i ∈ l,
      (genes.drop (i * (p.bits_per_coord * 2) + p.bits_per_coord)).take
        p.bits_per_coord ≠ []) :
    decodeAux p genes l = .ok (l.map (decodedAntenna p genes)) := by
  induction l with
  | nil => rfl
  | cons i rest ih =>
    have hxe : ((genes.drop (i * (p.bits_per_coord * 2))).take
        p.bits_per_coord).isEmpty = false := by
      simpa [List.isEmpty_iff] using hx i (by simp)
    have hye : ((genes.drop (i * (p.bits_per_coord * 2) + p.bits_per_coord)).take
        p.bits_per_coord).isEmpty = false := by
      simpa [List.isEmpty_iff] using hy i (by simp)
    have ih' := ih (fun j hj => hx j (by simp [hj])) (fun j hj => hy j (by simp [hj]))
    simp only [decodeAux, bits_to_int, hxe, hye, Bool.false_eq_true, if_false, ih',
      List.map_cons]
    rfl

theorem decode_ok (p : Problem) (genes : List Bool)
    (hlen : genes.length = p.chromosome_length)
    (hb : 0 < p.bits_per_coord ∨ p.num_antennas = 0) :
    p.decode genes = .ok ((List.range p.num_antennas).map (decodedAntenna p genes)) := by
  unfold Problem.decode
  rw [if_neg (by simp [hlen])]
  rcases hb with hb | hz
  · apply decodeAux_ok
    · intro i hi
      have hi' : i < p.num_antennas := List.mem_range.mp hi
      have hbound := antenna_slice_bound p.num_antennas p.bits_per_coord i hi'
      apply slice_ne_nil _ _ _ hb
      rw [hlen]
      unfold Problem.chromosome_length
      omega
    · intro i hi
      have hi' : i < p.num_antennas := List.mem_range.mp hi
      have hbound := antenna_slice_bound p.num_antennas p.bits_per_coord i hi'
      apply slice_ne_nil _ _ _ hb
      rw [hlen]
      unfold Problem.chromosome_length
      omega
  · rw [hz]
    rfl

theorem decodedAntenna_replicate_false (p : Problem) (i : Nat) :
    decodedAntenna p (List.replicate p.chromosome_length false) i = (0, 0) := by
  unfold decodedAntenna
  rw [List.drop_replicate, List.take_replicate, List.drop_replicate,
    List.take_replicate, bitsVal_replicate_false, bitsVal_replicate_false]
  simp

theorem decodedAntenna_replicate_true (p : Problem) (i : Nat)
    (hi : i < p.num_antennas) :
    decodedAntenna p (List.replicate p.chromosome_length true) i =
      (min (2 ^ p.bits_per_coord - 1) p.map_width,
       min (2 ^ p.bits_per_coord - 1) p.map_height) := by
  have hbound := antenna_slice_bound p.num_antennas p.bits_per_coord i hi
  have hL : p.chromosome_length = p.num_antennas * p.bits_per_coord * 2 := rfl
  have hmx : min p.bits_per_coord
      (p.chromosome_length - i * (p.bits_per_coord * 2)) = p.bits_per_coord := by
    omega
  have hmy : min p.bits_per_coord
      (p.chromosome_length - (i * (p.bits_per_coord * 2) + p.bits_per_coord)) =
      p.bits_per_coord := by
    omega
  unfold decodedAntenna
  rw [List.drop_replicate, List.take_replicate, List.drop_replicate,
    List.take_replicate, hmx, hmy, bitsVal_replicate_true]

/-- C6: `decode` fails with the InvalidChromosome error (`ValueError`) on
every input whose length differs from `chromosome_length`; on every
correct-length input it returns one coordinate pair per antenna, X being the
MSB-first value of the antenna's first `bits_per_coord` bits and Y of the
next `bits_per_coord` bits, each clamped by `min` to the map bounds; the
all-zero chromosome decodes every antenna to `(0, 0)` and the all-one
chromosome to `(min (2^bits_per_coord - 1) map_width,
min (2^bits_per_coord - 1) map_height)`. (`bits_per_coord` is positive per
the configuration contract; with it zero and antennas present the decode
loop would raise on the empty bit slice.) -/
theorem decode_spec (p : Problem) (hb : 0 < p.bits_per_coord) :
    (∀ genes : List Bool, genes.length ≠ p.chromosome_length →
        p.decode genes = .error .invalidChromosome)
  ∧ (∀ genes : List Bool, genes.length = p.chromosome_length →
      ∃ coords : List (Nat × Nat), p.decode genes = .ok coords ∧
        coords.length = p.num_antennas ∧
        ∀ i, i < p.num_antennas →
          coords[i]? = some
            (min (bitsVal ((genes.drop (i * (p.bits_per_coord * 2))).take
                p.bits_per_coord)) p.map_width,
             min (bitsVal ((genes.drop (i * (p.bits_per_coord * 2) +
                p.bits_per_coord)).take p.bits_per_coord)) p.map_height))
  ∧ p.decode (List.replicate p.chromosome_length false) =
      .ok (List.replicate p.num_antennas (0, 0))
  ∧ p.decode (List.replicate p.chromosome_length true) =
      .ok (List.replicate p.num_antennas
        (min (2 ^ p.bits_per_coord - 1) p.map_width,
         min (2 ^ p.bits_per_coord - 1) p.map_height)) := by
  have hchar : ∀ genes : List Bool, genes.length = p.chromosome_length →
      p.decode genes = .ok ((List.range p.num_antennas).map (decodedAntenna p genes)) :=
    fun genes hlen => decode_ok p genes hlen (Or.inl hb)
  refine ⟨?_, ?_, ?_, ?_⟩
  · intro genes hne
    unfold Problem.decode
    rw [if_pos hne]
  · intro genes hlen
    refine ⟨_, hchar genes hlen, by simp, ?_⟩
    intro i hi
    rw [List.getElem?_map, List.getElem?_range hi]
    rfl
  · rw [hchar _ (by simp)]
    congr 1
    apply (List.eq_replicate_iff).mpr
    constructor
    · simp
    · intro x hx
      obtain ⟨i, hi, hix⟩ := List.mem_map.mp hx
      rw [← hix, decodedAntenna_replicate_false]
  · rw [hchar _ (by simp)]
    congr 1
    apply (List.eq_replicate_iff).mpr
    constructor
    · simp
    · intro x hx
      obtain ⟨i, hi, hix⟩ := List.mem_map.mp hx
      rw [← hix, decodedAntenna_replicate_true p i (List.mem_range.mp hi)]

/-- C6 witness: the theorem applied to a concrete problem (1 antenna, 1 bit
per coordinate), on a wrong-length chromosome. -/
theorem decode_spec_witness :
    (0 : Nat) < (Problem.mk [⟨"c1", 0, 0⟩] 1 1 1 1 1).bits_per_coord ∧
    (Problem.mk [⟨"c1", 0, 0⟩] 1 1 1 1 1).decode [true] =
      .error .invalidChromosome :=
  ⟨by decide,
   (decode_spec (Problem.mk [⟨"c1", 0, 0⟩] 1 1 1 1 1) (by decide)).1 [true] (by decide)⟩

/-- C5: for every correct-length chromosome, `calculate_fitness` returns the
number of clients within `coverage_radius` (inclusive, squared Euclidean
comparison) of at least one decoded antenna — a client covered by several
antennas is counted once, since the count ranges over clients — and it
returns 0 whenever the client set is empty or `num_antennas` is 0. -/
theorem calculate_fitness_spec (p : Problem) (genes : List Bool)
    (hlen : genes.length = p.chromosome_length)
    (hb : 0 < p.bits_per_coord ∨ p.num_antennas = 0) :
    (∃ coords : List (Nat × Nat), p.decode genes = .ok coords ∧
        p.calculate_fitness genes = .ok (p.clients.countP (coveredBy p coords)) ∧
        ∀ c : Client, coveredBy p coords c = true ↔
          ∃ a ∈ coords, (c.x - (a.1 : Rat)) ^ 2 + (c.y - (a.2 : Rat)) ^ 2 ≤
            p.coverage_radius ^ 2)
  ∧ ((p.clients = [] ∨ p.num_antennas = 0) → p.calculate_fitness genes = .ok 0) := by
  have hdec := decode_ok p genes hlen hb
  set coords := (List.range p.num_antennas).map (decodedAntenna p genes) with hcoords
  have hcov : ∀ c : Client, coveredBy p coords c = true ↔
      ∃ a ∈ coords, (c.x - (a.1 : Rat)) ^ 2 + (c.y - (a.2 : Rat)) ^ 2 ≤
        p.coverage_radius ^ 2 := by
    intro c
    unfold coveredBy Problem.radius_sq
    rw [List.any_eq_true]
    constructor
    · rintro ⟨a, ha, hle⟩
      exact ⟨a, ha, of_decide_eq_true hle⟩
    · rintro ⟨a, ha, hle⟩
      exact ⟨a, ha, decide_eq_true hle⟩
  have hfit : p.calculate_fitness genes = .ok (p.clients.countP (coveredBy p coords)) := by
    unfold Problem.calculate_fitness
    rw [hdec]
    by_cases hc : p.clients.isEmpty
    · rw [if_pos hc]
      have : p.clients = [] := by simpa [List.isEmpty_iff] using hc
      simp [this]
    · rw [if_neg hc]
      by_cases hco : coords.isEmpty
      · have hnil : coords = [] := by simpa [List.isEmpty_iff] using hco
        simp only [hnil, List.isEmpty_nil, if_true]
        have : p.clients.countP (coveredBy p []) = 0 := by
          simp [List.countP_eq_zero, coveredBy]
        rw [this]
      · simp [hco]
  refine ⟨⟨coords, hdec, hfit, hcov⟩, ?_⟩
  rintro (hc | hn)
  · rw [hfit, hc]
    rfl
  · rw [hfit]
    have : coords = [] := by simp [hcoords, hn]
    simp [this, coveredBy, List.countP_eq_length_filter]

/-! Helper lemmas about the stable descending sort and the breeding loop. -/

theorem mem_insertDesc {z x : Individual} {l : List Individual} :
    z ∈ insertDesc x l ↔ z = x ∨ z ∈ l := by
  induction l with
  | nil => simp [insertDesc]
  | cons y ys ih =>
    by_cases hle : y.fitness ≤ x.fitness
    · simp only [insertDesc, if_pos hle, List.mem_cons]
    · simp only [insertDesc, if_neg hle, List.mem_cons, ih]
      tauto

theorem insertDesc_pairwise {x : Individual} {l : List Individual}
    (hl : l.Pairwise (fun a b => b.fitness ≤ a.fitness)) :
    (insertDesc x l).Pairwise (fun a b => b.fitness ≤ a.fitness) := by
  induction l with
  | nil => simp [insertDesc]
  | cons y ys ih =>
    rcases List.pairwise_cons.mp hl with ⟨hy, hys⟩
    by_cases hle : y.fitness ≤ x.fitness
    · simp only [insertDesc, if_pos hle]
      refine List.pairwise_cons.mpr ⟨?_, hl⟩
      intro z hz
      rcases List.mem_cons.mp hz with rfl | hz'
      · exact hle
      · exact le_trans (hy z hz') hle
    · have hlt : x.fitness < y.fitness := lt_of_not_le hle
      simp only [insertDesc, if_neg hle]
      refine List.pairwise_cons.mpr ⟨?_, ih hys⟩
      intro z hz
      rcases mem_insertDesc.mp hz with rfl | hz'
      · exact le_of_lt hlt
      · exact hy z hz'

theorem sortDesc_pairwise (l : List Individual) :
    (sortDesc l).Pairwise (fun a b => b.fitness ≤ a.fitness) := by
  induction l with
  | nil => exact List.Pairwise.nil
  | cons x xs ih =>
    simpa only [sortDesc] using insertDesc_pairwise ih

theorem insertDesc_filter (x : Individual) (l : List Individual) (f : Int) :
    (insertDesc x l).filter (fun z => decide (z.fitness = f)) =
      (x :: l).filter (fun z => decide (z.fitness = f)) := by
  induction l with
  | nil => rfl
  | cons y ys ih =>
    by_cases hle : y.fitness ≤ x.fitness
    · simp [insertDesc, if_pos hle]
    · have hlt : x.fitness < y.fitness := lt_of_not_le hle
      simp only [insertDesc, if_neg hle]
      by_cases hx : x.fitness = f
      · by_cases hy : y.fitness = f
        · rw [hx] at hlt; rw [hy] at hlt; exact absurd hlt (lt_irrefl f)
        · simp [List.filter_cons, hx, hy, ih]
      · simp [List.filter_cons, hx, ih]

theorem sortDesc_filter (l : List Individual) (f : Int) :
    (sortDesc l).filter (fun z => decide (z.fitness = f)) =
      l.filter (fun z => decide (z.fitness = f)) := by
  induction l with
  | nil => rfl
  | cons x xs ih =>
    simp only [sortDesc]
    rw [insertDesc_filter]
    simp only [List.filter_cons, ih]

theorem insertDesc_length (x : Individual) (l : List Individual) :
    (insertDesc x l).length = l.length + 1 := by
  induction l with
  | nil => rfl
  | cons y ys ih =>
    by_cases hle : y.fitness ≤ x.fitness
    · simp [insertDesc, if_pos hle]
    · simp [insertDesc, if_neg hle, ih]

theorem sortDesc_length (l : List Individual) :
    (sortDesc l).length = l.length := by
  induction l with
  | nil => rfl
  | cons x xs ih => simp [sortDesc, insertDesc_length, ih]

theorem breedLoop_ok_facts (cfg : Config) (pop : List Individual)
    (draws : Nat → PairDraw) :
    ∀ (fuel step : Nat) (acc r : List Individual),
      cfg.populationSize - acc.length < fuel →
      breedLoop cfg pop draws fuel step acc = .ok r →
      acc <+: r ∧ cfg.populationSize ≤ r.length := by
  intro fuel
  induction fuel with
  | zero => intro step acc r hfuel _; omega
  | succ fuel ih =>
    intro step acc r hfuel hok
    by_cases hlt : acc.length < cfg.populationSize
    · simp only [breedLoop, if_pos hlt] at hok
      split at hok
      · exact absurd hok (by simp)
      · exact absurd hok (by simp)
      · split at hok
        all_goals split at hok
        all_goals
          obtain ⟨hpre, hlen⟩ := ih (step + 1) _ r
            (by simp only [List.length_append, List.length_cons, List.length_nil]; omega) hok
        all_goals refine ⟨?_, hlen⟩
        all_goals
          first
          | exact (List.prefix_append _ _).trans ((List.prefix_append _ _).trans hpre)
          | exact (List.prefix_append _ _).trans hpre
    · simp only [breedLoop, if_neg hlt] at hok
      obtain rfl : acc = r := by injection hok
      exact ⟨List.prefix_refl _, by omega⟩

/-- C8: whenever a generation-build step succeeds, the population it
produces has length exactly `populationSize`: the reproduction loop stops
only at `≥ populationSize` members (a possible over-shoot by the second
child) and the final `[:POPULATION_SIZE]` truncation brings it to exactly
`populationSize`, never short. -/
theorem breed_population_size (cfg : Config) (pop : List Individual)
    (draws : Nat → PairDraw) (next : List Individual)
    (_helit : cfg.elitismCount ≤ cfg.populationSize)
    (h : breed_next_generation cfg pop draws = .ok next) :
    next.length = cfg.populationSize := by
  simp only [breed_next_generation] at h
  split at h
  · exact absurd h (by simp)
  · rename_i nextGen heq
    obtain rfl : nextGen.take cfg.populationSize = next := by injection h
    obtain ⟨-, hlen⟩ := breedLoop_ok_facts cfg pop draws (cfg.populationSize + 1) 0 _
      nextGen (by omega) heq
    simp only [List.length_take]
    omega

/-- C8 witness: the theorem applied to a concrete two-individual population
with `populationSize = 2` and `elitismCount = 1`. -/
theorem breed_population_size_witness :
    (Config.mk 2 2 1 (1/2) 0 0).elitismCount ≤ (Config.mk 2 2 1 (1/2) 0 0).populationSize ∧
    ([Individual.mk [false, false] 1, Individual.mk [true, true] 0] :
      List Individual).length = (Config.mk 2 2 1 (1/2) 0 0).populationSize :=
  ⟨by decide,
   breed_population_size (Config.mk 2 2 1 (1/2) 0 0)
     [Individual.mk [false, false] 1, Individual.mk [true, true] 0]
     (fun _ => PairDraw.mk 0 0 1 1 2 (fun _ => 1) (fun _ => 1))
     [Individual.mk [false, false] 1, Individual.mk [false, false] (-1)]
     (by decide) (by with_unfolding_all rfl)⟩

/-- C7: elitism and its tie-break. Whenever a generation-build step succeeds
on a population with at least `elitismCount` members (with
`elitismCount ≤ populationSize`), the first `elitismCount` slots of the new
population carry, gene for gene, the first `elitismCount` entries of the
stably sorted previous population; and that sort is descending by fitness
and stable — for every fitness value the equal-fitness individuals appear in
their original relative order, which fixes which of them survive when
`elitismCount` cuts inside a tie. -/
theorem breed_elitism_stable (cfg : Config) (pop : List Individual)
    (draws : Nat → PairDraw) (next : List Individual)
    (hpop : cfg.elitismCount ≤ pop.length)
    (hsz : cfg.elitismCount ≤ cfg.populationSize)
    (h : breed_next_generation cfg pop draws = .ok next) :
    (∀ i, i < cfg.elitismCount →
        next[i]?.map Individual.genes = (sortDesc pop)[i]?.map Individual.genes)
  ∧ (sortDesc pop).Pairwise (fun a b => b.fitness ≤ a.fitness)
  ∧ (∀ f : Int, (sortDesc pop).filter (fun z => decide (z.fitness = f)) =
        pop.filter (fun z => decide (z.fitness = f))) := by
  refine ⟨?_, sortDesc_pairwise pop, fun f => sortDesc_filter pop f⟩
  intro i hi
  simp only [breed_next_generation] at h
  split at h
  · exact absurd h (by simp)
  · rename_i nextGen heq
    obtain rfl : nextGen.take cfg.populationSize = next := by injection h
    obtain ⟨hpre, -⟩ := breedLoop_ok_facts cfg pop draws (cfg.populationSize + 1) 0 _
      nextGen (by omega) heq
    have helen : (((sortDesc pop).take cfg.elitismCount).map Individual.clone).length
        = cfg.elitismCount := by
      simp [sortDesc_length]
      omega
    obtain ⟨tail, rfl⟩ := hpre
    rw [List.getElem?_take_of_lt (by omega), List.getElem?_append_left (by omega),
      List.getElem?_map, List.getElem?_take_of_lt hi, Option.map_map]
    rfl

/-- C7 witness: the theorem applied to a concrete two-individual evaluated
population with `elitismCount = 1`. -/
theorem breed_elitism_stable_witness :
    (Config.mk 2 2 1 (1/2) 0 0).elitismCount ≤
      ([Individual.mk [false, false] 1, Individual.mk [true, true] 0] :
        List Individual).length ∧
    (∀ i, i < (Config.mk 2 2 1 (1/2) 0 0).elitismCount →
      ([Individual.mk [false, false] 1, Individual.mk [false, false] (-1)] :
        List Individual)[i]?.map Individual.genes =
      (sortDesc [Individual.mk [false, false] 1, Individual.mk [true, true] 0])[i]?.map
        Individual.genes) ∧
    (sortDesc [Individual.mk [false, false] 1,
      Individual.mk [true, true] 0]).Pairwise (fun a b => b.fitness ≤ a.fitness) ∧
    (∀ f : Int,
      (sortDesc [Individual.mk [false, false] 1,
        Individual.mk [true, true] 0]).filter (fun z => decide (z.fitness = f)) =
      ([Individual.mk [false, false] 1, Individual.mk [true, true] 0] :
        List Individual).filter (fun z => decide (z.fitness = f))) :=
  ⟨by decide,
   breed_elitism_stable (Config.mk 2 2 1 (1/2) 0 0)
     [Individual.mk [false, false] 1, Individual.mk [true, true] 0]
     (fun _ => PairDraw.mk 0 0 1 1 2 (fun _ => 1) (fun _ => 1))
     [Individual.mk [false, false] 1, Individual.mk [false, false] (-1)]
     (by decide) (by decide) (by with_unfolding_all rfl)⟩

/-- C9: two-point crossover. On parents of equal length: when the length is
below 3 the children are the two parents unchanged; otherwise, for any two
distinct cut points drawn from `{1, ..., length - 1}` (what
`rng.sample(range(1, length), 2)` produces), writing `p1 < p2` for their
sorted order, child A is `parent1[0:p1] + parent2[p1:p2] + parent1[p2:]`,
child B the complementary swap, and both children have the parents'
length. -/
theorem crossover_two_point_spec (parent_a parent_b : List Bool) (c1 c2 : Nat)
    (hlen : parent_b.length = parent_a.length) :
    (∀ (pa pb : List Bool) (d1 d2 : Nat), pa.length < 3 →
        crossover pa pb d1 d2 = (pa, pb))
  ∧ (3 ≤ parent_a.length → c1 ≠ c2 →
      1 ≤ c1 → c1 < parent_a.length → 1 ≤ c2 → c2 < parent_a.length →
      min c1 c2 < max c1 c2 ∧
      crossover parent_a parent_b c1 c2 =
        (parent_a.take (min c1 c2) ++
           (parent_b.drop (min c1 c2)).take (max c1 c2 - min c1 c2) ++
           parent_a.drop (max c1 c2),
         parent_b.take (min c1 c2) ++
           (parent_a.drop (min c1 c2)).take (max c1 c2 - min c1 c2) ++
           parent_b.drop (max c1 c2)) ∧
      (crossover parent_a parent_b c1 c2).1.length = parent_a.length ∧
      (crossover parent_a parent_b c1 c2).2.length = parent_a.length) := by
  constructor
  · intro pa pb d1 d2 hlt
    simp only [crossover, if_pos hlt]
  · intro h3 hne hc1l hc1u hc2l hc2u
    have hnl : ¬ parent_a.length < 3 := by omega
    refine ⟨by omega, by simp only [crossover, if_neg hnl], ?_, ?_⟩
    · simp only [crossover, if_neg hnl, List.length_append, List.length_take,
        List.length_drop, hlen]
      omega
    · simp only [crossover, if_neg hnl, List.length_append, List.length_take,
        List.length_drop, hlen]
      omega

/-- C9 witness: the theorem applied to concrete length-4 parents with cut
draws 3 and 1 (so `p1 = 1`, `p2 = 3`). -/
theorem crossover_two_point_spec_witness :
    ([false, false, false, true] : List Bool).length =
      ([true, true, true, false] : List Bool).length ∧
    min 3 1 < max 3 1 ∧
    crossover [true, true, true, false] [false, false, false, true] 3 1 =
      (([true, true, true, false] : List Bool).take (min 3 1) ++
         (([false, false, false, true] : List Bool).drop (min 3 1)).take
           (max 3 1 - min 3 1) ++
         ([true, true, true, false] : List Bool).drop (max 3 1),
       ([false, false, false, true] : List Bool).take (min 3 1) ++
         (([true, true, true, false] : List Bool).drop (min 3 1)).take
           (max 3 1 - min 3 1) ++
         ([false, false, false, true] : List Bool).drop (max 3 1)) ∧
    (crossover [true, true, true, false] [false, false, false, true] 3 1).1.length =
      ([true, true, true, false] : List Bool).length ∧
    (crossover [true, true, true, false] [false, false, false, true] 3 1).2.length =
      ([true, true, true, false] : List Bool).length :=
  ⟨by decide,
   (crossover_two_point_spec [true, true, true, false] [false, false, false, true]
     3 1 (by decide)).2 (by decide) (by decide) (by decide) (by decide)
     (by decide) (by decide)⟩

/-- C5 witness: the theorem applied to a concrete problem and the all-zero
chromosome, which covers the single client at the origin. -/
theorem calculate_fitness_spec_witness :
    [false, false].length = (Problem.mk [⟨"c1", 0, 0⟩] 1 1 1 1 1).chromosome_length ∧
    (Problem.mk [⟨"c1", 0, 0⟩] 1 1 1 1 1).calculate_fitness [false, false] =
      .ok ((Problem.mk [⟨"c1", 0, 0⟩] 1 1 1 1 1).clients.countP
        (coveredBy (Problem.mk [⟨"c1", 0, 0⟩] 1 1 1 1 1) [(0, 0)])) ∧
    (∃ coords : List (Nat × Nat),
      (Problem.mk [⟨"c1", 0, 0⟩] 1 1 1 1 1).decode [false, false] = .ok coords ∧
      (Problem.mk [⟨"c1", 0, 0⟩] 1 1 1 1 1).calculate_fitness [false, false] =
        .ok (((Problem.mk [⟨"c1", 0, 0⟩] 1 1 1 1 1).clients).countP
          (coveredBy (Problem.mk [⟨"c1", 0, 0⟩] 1 1 1 1 1) coords)) ∧
      ∀ c : Client, coveredBy (Problem.mk [⟨"c1", 0, 0⟩] 1 1 1 1 1) coords c = true ↔
        ∃ a ∈ coords, (c.x - (a.1 : Rat)) ^ 2 + (c.y - (a.2 : Rat)) ^ 2 ≤
          (Problem.mk [⟨"c1", 0, 0⟩] 1 1 1 1 1).coverage_radius ^ 2) :=
  ⟨by decide, by with_unfolding_all rfl,
   (calculate_fitness_spec (Problem.mk [⟨"c1", 0, 0⟩] 1 1 1 1 1) [false, false]
     (by decide) (Or.inl (by decide))).1⟩

/-! Helper lemmas about the run loop and fitness caching. -/

theorem clone_consistent {p : Problem} {ind : Individual}
    (h : FitConsistent p ind) : FitConsistent p ind.clone := h

theorem evaluate_population_consistent (p : Problem) :
    ∀ (l l' : List Individual), evaluate_population p l = .ok l' →
      ∀ ind ∈ l', FitConsistent p ind := by
  intro l
  induction l with
  | nil =>
    intro l' h ind hmem
    obtain rfl : ([] : List Individual) = l' := by injection h
    simp at hmem
  | cons x xs ih =>
    intro l' h ind hmem
    simp only [evaluate_population] at h
    split at h
    · exact absurd h (by simp)
    · rename_i f hf
      split at h
      · rename_i tail htail
        obtain rfl : ({ x with fitness := (f : Int) } :: tail) = l' := by injection h
        rcases List.mem_cons.mp hmem with rfl | hmem'
        · exact ⟨f, hf, rfl⟩
        · exact ih tail htail ind hmem'
      · exact absurd h (by simp)

theorem foldl_max_mem (x : Individual) (xs : List Individual) :
    xs.foldl (fun b y => if b.fitness < y.fitness then y else b) x ∈ x :: xs := by
  induction xs generalizing x with
  | nil => simp
  | cons y ys ih =>
    simp only [List.foldl_cons]
    by_cases hxy : x.fitness < y.fitness
    · rw [if_pos hxy]
      rcases List.mem_cons.mp (ih y) with h | h
      · rw [h]; simp
      · simp [List.mem_cons, h]
    · rw [if_neg hxy]
      rcases List.mem_cons.mp (ih x) with h | h
      · rw [h]; simp
      · simp [List.mem_cons, h]

theorem maxByFitness_mem {l : List Individual} {b : Individual}
    (h : maxByFitness l = some b) : b ∈ l := by
  cases l with
  | nil => simp [maxByFitness] at h
  | cons x xs =>
    simp only [maxByFitness, Option.some.injEq] at h
    rw [← h]
    exact foldl_max_mem x xs

theorem runLoop_consistent (p : Problem) (cfg : Config)
    (draws : Nat → Nat → PairDraw) :
    ∀ (remaining : Nat) (pop : List Individual) (best : Individual)
      (stagnant i : Nat) (b : Individual) (g : Nat),
      FitConsistent p best →
      runLoop p cfg draws remaining pop best stagnant i = .ok (b, g) →
      FitConsistent p b := by
  intro remaining
  induction remaining with
  | zero =>
    intro pop best stagnant i b g hbest h
    simp only [runLoop] at h
    injection h with h'
    obtain rfl : best = b := congrArg Prod.fst h'
    exact hbest
  | succ remaining ih =>
    intro pop best stagnant i b g hbest h
    simp only [runLoop] at h
    split at h
    · exact absurd h (by simp)
    · rename_i newPop hbreed
      split at h
      · exact absurd h (by simp)
      · rename_i evalPop heval
        split at h
        · exact absurd h (by simp)
        · rename_i currentBest hmax
          have hcur : FitConsistent p currentBest :=
            evaluate_population_consistent p newPop evalPop heval currentBest
              (maxByFitness_mem hmax)
          by_cases himp : best.fitness < currentBest.fitness
          · rw [if_pos himp] at h
            split at h
            · injection h with h'
              obtain rfl : currentBest.clone = b := congrArg Prod.fst h'
              exact clone_consistent hcur
            · exact ih evalPop currentBest.clone 0 (i + 1) b g (clone_consistent hcur) h
          · rw [if_neg himp] at h
            split at h
            · injection h with h'
              obtain rfl : best = b := congrArg Prod.fst h'
              exact hbest
            · exact ih evalPop best (stagnant + 1) (i + 1) b g hbest h

/-- C10: the individual returned by `run` always carries a cached fitness
consistent with its genes — `fitness = calculate_fitness(genes)` — because
the best-ever record is only ever a clone of a member of a just-evaluated
population and its genes are never modified afterwards. -/
theorem run_best_fitness_consistent (p : Problem) (cfg : Config)
    (initPop : List Individual) (draws : Nat → Nat → PairDraw)
    (b : Individual) (g : Nat)
    (h : run p cfg initPop draws = .ok (b, g)) :
    ∃ f : Nat, p.calculate_fitness b.genes = .ok f ∧ b.fitness = (f : Int) := by
  simp only [run] at h
  split at h
  · exact absurd h (by simp)
  · rename_i pop hpop
    split at h
    · exact absurd h (by simp)
    · rename_i b0 hmax
      exact runLoop_consistent p cfg draws cfg.maxGenerations pop b0.clone 0 1 b g
        (clone_consistent
          (evaluate_population_consistent p initPop pop hpop b0 (maxByFitness_mem hmax)))
        h

/-- C10 witness: the theorem applied to a concrete completed run. -/
theorem run_best_fitness_consistent_witness :
    ∃ f : Nat,
      (Problem.mk [⟨"c1", 0, 0⟩] 1 1 1 1 1).calculate_fitness
        (Individual.mk [false, false] 1).genes = .ok f ∧
      (Individual.mk [false, false] 1).fitness = (f : Int) :=
  run_best_fitness_consistent (Problem.mk [⟨"c1", 0, 0⟩] 1 1 1 1 1)
    (Config.mk 2 2 1 (1/2) 0 1)
    [Individual.mk [false, false] (-1), Individual.mk [true, true] (-1)]
    (fun _ _ => PairDraw.mk 0 0 1 1 2 (fun _ => 1) (fun _ => 1))
    (Individual.mk [false, false] 1) 1 (by with_unfolding_all rfl)

/-- C2 (behavior at the failing input): with `MAX_STAGNANT_GENERATIONS = 0`
and at least one generation configured, every successful run stops after
exactly one generation — the break test `stagnant_generations >= 0` already
holds at the end of generation 1, whether or not fitness improved — instead
of disabling early stopping and running all `MAX_GENERATIONS` generations. -/
theorem run_stagnant_zero_stops_after_one (p : Problem) (cfg : Config)
    (initPop : List Individual) (draws : Nat → Nat → PairDraw)
    (b : Individual) (g : Nat)
    (h0 : cfg.maxStagnantGenerations = 0) (h1 : 1 ≤ cfg.maxGenerations)
    (h : run p cfg initPop draws = .ok (b, g)) : g = 1 := by
  simp only [run] at h
  split at h
  · exact absurd h (by simp)
  · split at h
    · exact absurd h (by simp)
    · obtain ⟨remaining, hrem⟩ : ∃ k, cfg.maxGenerations = k + 1 :=
        ⟨cfg.maxGenerations - 1, by omega⟩
      rw [hrem] at h
      simp only [runLoop] at h
      split at h
      · exact absurd h (by simp)
      · split at h
        · exact absurd h (by simp)
        · split at h
          · exact absurd h (by simp)
          · rw [h0, if_pos (Nat.zero_le _)] at h
            injection h with h'
            exact (congrArg Prod.snd h').symm

/-- C2 witness: a concrete run with `maxStagnantGenerations = 0` and
`maxGenerations = 2`; the theorem yields `generations_run = 1`, not 2. -/
theorem run_stagnant_zero_stops_after_one_witness :
    (Config.mk 2 2 1 (1/2) 0 0).maxStagnantGenerations = 0 ∧
    1 ≤ (Config.mk 2 2 1 (1/2) 0 0).maxGenerations ∧ (1 : Nat) = 1 :=
  ⟨rfl, by decide,
   run_stagnant_zero_stops_after_one (Problem.mk [⟨"c1", 0, 0⟩] 1 1 1 1 1)
     (Config.mk 2 2 1 (1/2) 0 0)
     [Individual.mk [false, false] (-1), Individual.mk [true, true] (-1)]
     (fun _ _ => PairDraw.mk 0 0 1 1 2 (fun _ => 1) (fun _ => 1))
     (Individual.mk [false, false] 1) 1 rfl (by decide) (by with_unfolding_all rfl)⟩

/-! Lemmas for roulette selection with an all-nonpositive population. -/

theorem cumsumFrom_zeros (s : Int) : ∀ l : List Int, (∀ w ∈ l, w = 0) →
    cumsumFrom s l = List.replicate l.length s := by
  intro l
  induction l with
  | nil => intro _; rfl
  | cons w ws ih =>
    intro hw
    have hw0 : w = 0 := hw w (by simp)
    simp only [cumsumFrom, hw0, add_zero, List.length_cons, List.replicate_succ]
    rw [ih (fun x hx => hw x (by simp [hx]))]

/-- C1 counterexample: on a population whose members all have fitness ≤ 0
(every selection weight `max(fitness, 0)` is 0), roulette selection does not
return an individual at all: `random.choices` raises
`ValueError("Total of weights must be greater than zero")`. There is no
uniform-choice fallback branch. -/
theorem roulette_zero_weights_raises :
    roulette_selection [Individual.mk [true] 0, Individual.mk [false] (-1)]
      (1/2) = .error .totalWeightZero := by
  with_unfolding_all rfl

/-- C1 (amended): for every nonempty population in which every individual
has fitness ≤ 0, all selection weights `max(fitness, 0)` are 0 and roulette
selection fails with the zero-total-weight `ValueError` from
`random.choices` instead of degenerating to a uniform random choice. -/
theorem roulette_all_nonpositive_error (pop : List Individual) (r : Rat)
    (hne : pop ≠ []) (hz : ∀ ind ∈ pop, ind.fitness ≤ 0) :
    roulette_selection pop r = .error .totalWeightZero := by
  simp only [roulette_selection]
  have hw : ∀ w ∈ pop.map (fun ind => max ind.fitness 0), w = 0 := by
    intro w hwm
    obtain ⟨ind, hmem, rfl⟩ := List.mem_map.mp hwm
    have := hz ind hmem
    omega
  have hcum : cumsum (pop.map fun ind => max ind.fitness 0) =
      List.replicate (pop.map fun ind => max ind.fitness 0).length 0 :=
    cumsumFrom_zeros 0 _ hw
  rw [hcum, List.getLast?_replicate]
  have hlen : (pop.map fun ind => max ind.fitness 0).length ≠ 0 := by
    simpa using fun hn => hne hn
  rw [if_neg hlen]
  simp

/-- C1 witness for the amended claim: a one-individual population with
fitness 0. -/
theorem roulette_all_nonpositive_error_witness :
    ([Individual.mk [true] 0] : List Individual) ≠ [] ∧
    roulette_selection [Individual.mk [true] 0] (1/3) = .error .totalWeightZero :=
  ⟨by decide,
   roulette_all_nonpositive_error [Individual.mk [true] 0] (1/3)
     (by decide) (by decide)⟩

/-- C3 counterexample: `clone = dataclasses.replace(self)` copies the
gene-list reference, so writing the clone's gene list in place changes what
the original reads — the clone's genes are not an independent copy. -/
theorem clone_aliasing_counterexample :
    ((GeneStore.mk [[true, false]]).write
        (RefIndividual.clone (RefIndividual.mk 0 1)).genesRef [false, false]).read
      (RefIndividual.mk 0 1).genesRef ≠
    (GeneStore.mk [[true, false]]).read (RefIndividual.mk 0 1).genesRef := by
  decide

/-- C3 (amended): `clone` is a shallow copy. The clone carries the same
gene-list reference as the original (and the same fitness value), so an
in-place modification through the clone's reference is visible when reading
the original's genes; the two individuals never get independent gene
storage. -/
theorem clone_shallow_shares_genes (ind : RefIndividual) (s : GeneStore)
    (v : List Bool) (h : ind.genesRef < s.lists.length) :
    ind.clone.genesRef = ind.genesRef ∧ ind.clone.fitness = ind.fitness ∧
    (s.write ind.clone.genesRef v).read ind.genesRef = v := by
  refine ⟨rfl, rfl, ?_⟩
  simp only [GeneStore.write, GeneStore.read, RefIndividual.clone]
  rw [List.getD_eq_getElem?_getD, List.getElem?_set_self h]
  rfl

/-- C3 witness: the amended claim applied to a concrete store and
individual. -/
theorem clone_shallow_shares_genes_witness :
    (RefIndividual.mk 0 1).genesRef < (GeneStore.mk [[true, false]]).lists.length ∧
    ((RefIndividual.mk 0 1).clone.genesRef = (RefIndividual.mk 0 1).genesRef ∧
     (RefIndividual.mk 0 1).clone.fitness = (RefIndividual.mk 0 1).fitness ∧
     ((GeneStore.mk [[true, false]]).write (RefIndividual.mk 0 1).clone.genesRef
        [false, true]).read (RefIndividual.mk 0 1).genesRef = [false, true]) :=
  ⟨by decide,
   clone_shallow_shares_genes (RefIndividual.mk 0 1) (GeneStore.mk [[true, false]])
     [false, true] (by decide)⟩

/-- C4 counterexample: a malformed configuration — elitism exceeding the
population size, crossover rate above 1, negative mutation rate — is not
rejected: the constructor succeeds, and the generational loop runs a full
generation and returns normally. No InvalidConfiguration failure exists. -/
theorem no_config_validation_counterexample :
    ((Config.mk 2 1 3 (3/2) (-(1/2)) 5).populationSize <
        (Config.mk 2 1 3 (3/2) (-(1/2)) 5).elitismCount ∧
      (1 : Rat) < (Config.mk 2 1 3 (3/2) (-(1/2)) 5).crossoverRate ∧
      (Config.mk 2 1 3 (3/2) (-(1/2)) 5).mutationRate < 0) ∧
    gaInit (Problem.mk [⟨"c1", 0, 0⟩] 1 1 1 1 1)
      (Config.mk 2 1 3 (3/2) (-(1/2)) 5) =
      .ok (Problem.mk [⟨"c1", 0, 0⟩] 1 1 1 1 1, [], 0) ∧
    run (Problem.mk [⟨"c1", 0, 0⟩] 1 1 1 1 1) (Config.mk 2 1 3 (3/2) (-(1/2)) 5)
      [Individual.mk [false, false] (-1), Individual.mk [true, true] (-1)]
      (fun _ _ => PairDraw.mk 0 0 1 1 2 (fun _ => 1) (fun _ => 1)) =
      .ok (Individual.mk [false, false] 1, 1) := by
  refine ⟨⟨by decide, ?_, ?_⟩, rfl, by with_unfolding_all rfl⟩
  · with_unfolding_all decide
  · with_unfolding_all decide

/-- C4 (amended): the engine constructor performs no validation whatsoever:
it succeeds on every configuration, malformed or not — there is no
InvalidConfiguration error anywhere in the embedded error taxonomy, and
out-of-range rates are simply used as given by the loop. -/
theorem gaInit_accepts_any_config (p : Problem) (cfg : Config) :
    gaInit p cfg = .ok (p, [], 0) := rfl
